import Mathlib

/-!
Shallow embedding of the RetailRover data-normalization, deduplication,
recommendation and price-prediction pipeline
(`src/utils/data_processor.py`, `src/utils/recommendation_engine.py`,
`src/utils/ml_price_predictor.py`).

Modelling conventions:
* Python floats are modelled as exact rationals `ℚ`.  No claim below hinges on
  binary floating-point artifacts; rounding to two decimals (`round(x, 2)`)
  is modelled exactly as round-half-even on `ℚ`.
* pandas DataFrames are modelled as `List` of records (one structure per
  column set); `groupby` is modelled by filtering per key, with keys in
  sorted order as pandas emits them.
* `fuzzywuzzy.fuzz.ratio` is modelled as the Indel/Levenshtein-based ratio
  `round(200 * |LCS(a,b)| / (|a|+|b|))` used by python-Levenshtein (and by
  difflib's `SequenceMatcher` on the short, junk-free names appearing in the
  concrete inputs below).
* `numpy` random draws (`np.random.uniform`, `np.random.normal`) are
  universally quantified parameters: theorems hold for (or exhibit) every
  draw, which is how the claims quantify over randomness.
-/

namespace RetailRover

/-! ### Rounding helpers (Python `round` semantics: round half to even) -/

/-- Round a rational to the nearest integer, halves to even — the rounding
Python's builtin `round` (and `fuzzywuzzy`'s `int(round(...))`) performs. -/
def roundHalfEven (q : ℚ) : ℤ :=
  if q - ⌊q⌋ < 1/2 then ⌊q⌋
  else if 1/2 < q - ⌊q⌋ then ⌊q⌋ + 1
  else if ⌊q⌋ % 2 = 0 then ⌊q⌋ else ⌊q⌋ + 1

/-- Python `round(x, 2)`: round to two decimal places, halves to even. -/
def pyRound2 (q : ℚ) : ℚ := (roundHalfEven (100 * q) : ℚ) / 100

/-- Round-half-even on a nonnegative integer fraction `p / q` (used for the
0–100 fuzzy-similarity scale, which never leaves ℕ). -/
def roundHalfEvenNat (p q : ℕ) : ℕ :=
  if q = 0 then 0
  else
    let f := p / q
    let r := p % q
    if 2 * r < q then f
    else if q < 2 * r then f + 1
    else if f % 2 = 0 then f else f + 1

/-! ### Fuzzy string similarity (`fuzzywuzzy.fuzz.ratio`) -/

/-- Length of a longest common subsequence, on `fuel` units of work; the
`fuel`-argument makes the recursion structural (hence kernel-reducible), and
`fuel = |l1| + |l2|` always suffices since every step shortens the lists. -/
def lcsAux : ℕ → List Char → List Char → ℕ
  | 0, _, _ => 0
  | _ + 1, [], _ => 0
  | _ + 1, _ :: _, [] => 0
  | n + 1, a :: as, b :: bs =>
    if a = b then lcsAux n as bs + 1
    else max (lcsAux n (a :: as) bs) (lcsAux n as (b :: bs))

/-- Length of a longest common subsequence of two character lists. -/
def lcs (l1 l2 : List Char) : ℕ := lcsAux (l1.length + l2.length) l1 l2

/-- `fuzz.ratio(a, b)`: `int(round(100 * 2M / (len a + len b)))` where `M` is
the number of matched characters; both strings empty gives ratio `1.0`,
hence `100`. -/
def fuzzRatio (a b : String) : ℕ :=
  let t := a.length + b.length
  if t = 0 then 100 else roundHalfEvenNat (200 * lcs a.data b.data) t

/-! ### Python string / float coercion helpers -/

/-- Leading-and-trailing whitespace strip, as `float(str)` and `str.strip()`
perform (Python also strips some exotic unicode spaces; the pipeline's
inputs only involve ASCII whitespace). -/
def stripWs (cs : List Char) : List Char :=
  ((cs.dropWhile Char.isWhitespace).reverse.dropWhile Char.isWhitespace).reverse

/-- Numeric value of a list of decimal digit characters. -/
def digitsVal (cs : List Char) : ℕ :=
  cs.foldl (fun acc c => 10 * acc + (c.toNat - '0'.toNat)) 0

/-- Assemble the rational value of a parsed float literal:
`sign * mant / 10^fracLen * 10^exp`, kept as a single `mkRat` so the value
is built from integer arithmetic only. -/
def floatVal (sign : ℤ) (mant : ℕ) (fracLen : ℕ) (exp : ℤ) : ℚ :=
  if 0 ≤ exp then mkRat (sign * mant * (10 : ℤ) ^ exp.toNat) (10 ^ fracLen)
  else mkRat (sign * mant) (10 ^ fracLen * 10 ^ (-exp).toNat)

/-- Parse an optional exponent part `[("e"|"E") [sign] digits]`; returns the
exponent and requires the rest of the input to be empty. -/
def parseExp : List Char → Option ℤ
  | [] => some 0
  | e :: rest =>
    if e = 'e' ∨ e = 'E' then
      match rest with
      | '+' :: ds => if ds ≠ [] ∧ ds.all Char.isDigit then some (digitsVal ds) else none
      | '-' :: ds => if ds ≠ [] ∧ ds.all Char.isDigit then some (-(digitsVal ds : ℤ)) else none
      | ds => if ds ≠ [] ∧ ds.all Char.isDigit then some (digitsVal ds) else none
    else none

/-- Parse the unsigned body of a Python float literal
(`digits [. digits] [exp]` or `. digits [exp]`), returning its value with
the given sign.  Special forms (`inf`, `nan`, underscore separators) are not
representable in `ℚ` / not exercised by any claim and parse as failure. -/
def parseBody (sign : ℤ) (cs : List Char) : Option ℚ :=
  let ds := cs.takeWhile Char.isDigit
  let rest := cs.dropWhile Char.isDigit
  match rest with
  | '.' :: rest2 =>
    let fs := rest2.takeWhile Char.isDigit
    let rest3 := rest2.dropWhile Char.isDigit
    if ds = [] ∧ fs = [] then none
    else
      match parseExp rest3 with
      | some e => some (floatVal sign (digitsVal (ds ++ fs)) fs.length e)
      | none => none
  | _ =>
    if ds = [] then none
    else
      match parseExp rest with
      | some e => some (floatVal sign (digitsVal ds) 0 e)
      | none => none

/-- Python `float(s)` on a string: strip whitespace, optional sign, then a
decimal float literal; `none` models the `ValueError` raised on anything
else (e.g. currency symbols or thousands-separator commas). -/
def pyFloat? (s : String) : Option ℚ :=
  match stripWs s.data with
  | '+' :: cs => parseBody 1 cs
  | '-' :: cs => parseBody (-1) cs
  | cs => parseBody 1 cs

/-! ### `DataProcessor.normalize_price` -/

/-- The value space of the raw `price` field: missing (`None`/`NaN`, both
detected by `pd.isna`), a number, or a string. -/
inductive PriceIn where
  | pnone : PriceIn
  | pnum (q : ℚ) : PriceIn
  | pstr (s : String) : PriceIn
deriving DecidableEq

/-- `DataProcessor.normalize_price` (src/utils/data_processor.py:123-140):
`if pd.isna(price) or price == 0: return 0.0`, then `float(price)` with
`0.0` on `ValueError`/`TypeError`.  Note: no character stripping happens —
the string is handed to `float` verbatim. -/
def normalize_price : PriceIn → ℚ
  | .pnone => 0
  | .pnum q => if q = 0 then 0 else q
  | .pstr s =>
    -- a Python `str` never equals `0` and is never `isna`
    match pyFloat? s with
    | some q => q
    | none => 0

/-- ASCII lower-casing, as `str.lower()` acts on the pipeline's inputs
(which never contain cased non-ASCII letters). -/
def toLowerAsc (c : Char) : Char :=
  if 'A' ≤ c ∧ c ≤ 'Z' then Char.ofNat (c.toNat + 32) else c

/-- Lower-cased character list of a string. -/
def lowerStr (s : String) : List Char := s.data.map toLowerAsc

/-! ### Regex fragments used by the pattern tables

The source's patterns are alternations of literals interleaved with the
character classes `\s+`, `\s*` and `[\s-]*`.  Since no literal begins with a
whitespace/dash character, maximal munch of those classes is complete (no
backtracking can create a match that maximal munch misses). -/

/-- One token of a pattern alternative. -/
inductive Tok where
  | lit (s : String)
  | ws1
  | ws0
  | wsDash0
deriving DecidableEq

/-- Match a literal at the head of the input, returning the rest. -/
def litMatch : List Char → List Char → Option (List Char)
  | [], cs => some cs
  | _ :: _, [] => none
  | l :: ls, c :: cs => if l = c then litMatch ls cs else none

/-- Match a token sequence at the head of the input. -/
def matchToks : List Tok → List Char → Bool
  | [], _ => true
  | .lit s :: ts, cs =>
    match litMatch s.data cs with
    | some rest => matchToks ts rest
    | none => false
  | .ws1 :: ts, cs =>
    if (cs.takeWhile Char.isWhitespace) = [] then false
    else matchToks ts (cs.dropWhile Char.isWhitespace)
  | .ws0 :: ts, cs => matchToks ts (cs.dropWhile Char.isWhitespace)
  | .wsDash0 :: ts, cs => matchToks ts (cs.dropWhile (fun c => c.isWhitespace ∨ c = '-'))

/-- All suffixes of a list (the candidate match positions of `re.search`),
leftmost first, including the empty suffix. -/
def suffixes : List Char → List (List Char)
  | [] => [[]]
  | c :: cs => (c :: cs) :: suffixes cs

/-- `re.search` of an alternation of token sequences, as a Boolean:
does any alternative match at any position? -/
def searchPat (alts : List (List Tok)) (cs : List Char) : Bool :=
  (suffixes cs).any (fun suf => alts.any (fun alt => matchToks alt suf))

/-! ### `DataProcessor.categorize_product` and its rule table -/

/-- The specific rules of `category_mappings`
(src/utils/data_processor.py:36-71), in Python 3.7+ dict insertion order. -/
def specific_category_mappings : List (List (List Tok) × String) :=
  [ ([[.lit "tea"], [.lit "coffee"], [.lit "cocoa"], [.lit "hot", .ws1, .lit "chocolate"],
      [.lit "milo"], [.lit "bournvita"], [.lit "ovaltine"]], "beverages"),
    ([[.lit "water"], [.lit "mineral", .ws1, .lit "water"], [.lit "bottled", .ws1, .lit "water"],
      [.lit "table", .ws1, .lit "water"]], "beverages"),
    ([[.lit "energy", .ws1, .lit "drink"], [.lit "milk"], [.lit "chocolate", .ws1, .lit "drink"]], "beverages"),
    ([[.lit "soda"], [.lit "cola"], [.lit "pepsi"], [.lit "coca", .wsDash0, .lit "cola"],
      [.lit "fanta"], [.lit "sprite"], [.lit "7up"], [.lit "seven", .ws0, .lit "up"],
      [.lit "coke"]], "soft-drinks"),
    ([[.lit "soft", .ws1, .lit "drink"], [.lit "carbonated"]], "soft-drinks"),
    ([[.lit "mirinda"], [.lit "mountain", .ws1, .lit "dew"], [.lit "teem"], [.lit "schweppes"]], "soft-drinks"),
    ([[.lit "detergent"], [.lit "soap"], [.lit "washing", .ws1, .lit "powder"]], "detergents"),
    ([[.lit "bleach"], [.lit "stain", .ws1, .lit "remover"], [.lit "fabric", .ws1, .lit "cleaner"]], "detergents"),
    ([[.lit "laundry"], [.lit "cleaning", .ws1, .lit "agent"], [.lit "dishwashing"]], "detergents"),
    ([[.lit "omo"], [.lit "ariel"], [.lit "sunlight"], [.lit "surf"]], "detergents"),
    ([[.lit "biscuit"], [.lit "cookie"], [.lit "wafer"], [.lit "chips"], [.lit "crisps"]], "snacks"),
    ([[.lit "snack"], [.lit "chocolate"], [.lit "candy"], [.lit "sweet"], [.lit "gum"]], "snacks"),
    ([[.lit "popcorn"], [.lit "pringles"], [.lit "digestive"]], "snacks"),
    ([[.lit "soap"], [.lit "body", .ws1, .lit "wash"], [.lit "shower", .ws1, .lit "gel"]], "personal-care"),
    ([[.lit "toothpaste"], [.lit "toothbrush"], [.lit "dental"], [.lit "floss"]], "personal-care"),
    ([[.lit "shampoo"], [.lit "conditioner"], [.lit "hair", .ws1, .lit "care"]], "personal-care"),
    ([[.lit "deodorant"], [.lit "antiperspirant"], [.lit "body", .ws1, .lit "spray"]], "personal-care"),
    ([[.lit "lotion"], [.lit "cream"], [.lit "moisturizer"], [.lit "sunscreen"]], "personal-care"),
    ([[.lit "rice"], [.lit "beans"], [.lit "pasta"], [.lit "noodles"], [.lit "spaghetti"]], "food"),
    ([[.lit "flour"], [.lit "sugar"], [.lit "salt"], [.lit "seasoning"], [.lit "spice"]], "food"),
    ([[.lit "oil"], [.lit "cooking", .ws1, .lit "oil"], [.lit "vegetable", .ws1, .lit "oil"],
      [.lit "palm", .ws1, .lit "oil"]], "food"),
    ([[.lit "bread"], [.lit "cereal"], [.lit "breakfast"]], "food"),
    ([[.lit "canned"], [.lit "tinned"], [.lit "sardine"], [.lit "tuna"],
      [.lit "tomato", .ws1, .lit "paste"]], "food") ]

/-- The full rule table: the specific rules followed by the terminal
catch-all entry `r".*" : "other"` (an empty token sequence, matching at any
position of any string, models `.*`). -/
def category_mappings : List (List (List Tok) × String) :=
  specific_category_mappings ++ [([([] : List Tok)], "other")]

/-- First rule of the table whose pattern matches somewhere in the input. -/
def firstRuleMatch : List (List (List Tok) × String) → List Char → Option String
  | [], _ => none
  | (pat, cat) :: rest, cs =>
    if searchPat pat cs then some cat else firstRuleMatch rest cs

/-- `DataProcessor.categorize_product` (src/utils/data_processor.py:93-121):
empty (falsy) name returns `"other"`; otherwise the ordered rule table is
evaluated against the lower-cased name, and — were no rule to match — then
against the lower-cased source category (truthy only) and finally `"other"`.
Lower-casing the input subsumes the source's `re.IGNORECASE` flag, since
every pattern in the table is lower-case ASCII. -/
def categorize_product (product_name : String) (original_category : String) : String :=
  if product_name = "" then "other"
  else
    match firstRuleMatch category_mappings (lowerStr product_name) with
    | some c => c
    | none =>
      if original_category ≠ "" then
        match firstRuleMatch category_mappings (lowerStr original_category) with
        | some c => c
        | none => "other"
      else "other"

/-- Modelled from the spec (§4.2), for comparison against the code: evaluate
the ordered rules (the specific ones — in the spec's reading a rule can fail
to match, so the terminal catch-all is not one of them) against the
lower-cased name, then against the lower-cased source category, then return
`"other"`. -/
def categorize_product_asSpecified (product_name : String) (original_category : String) : String :=
  match firstRuleMatch specific_category_mappings (lowerStr product_name) with
  | some c => c
  | none =>
    match firstRuleMatch specific_category_mappings (lowerStr original_category) with
    | some c => c
    | none => "other"

/-! ### `DataProcessor.normalize_units` and its pattern table -/

/-- The result shape of `normalize_units`. -/
structure UnitInfo where
  unit_type : String
  unit : String
  value : ℚ
deriving DecidableEq

/-- One entry of `unit_patterns`: the dict key (reported as the `unit`), the
pattern `(\d+\.?\d*)\s*SUF |LIT|LIT...` — `dec` records whether the numeric
group allows a decimal part (`(\d+)` for the quantity patterns). -/
structure UnitPat where
  key : String
  dec : Bool
  suffixTok : String
  lits : List String
deriving DecidableEq

/-- `unit_patterns` (src/utils/data_processor.py:77-91), in dict insertion
order. -/
def unit_patterns : List (String × List UnitPat) :=
  [ ("volume",
      [⟨"ml", true, "ml", ["milliliter", "millilitre"]⟩,
       ⟨"l", true, "l", ["liter", "litre", "ltr"]⟩,
       ⟨"cl", true, "cl", ["centiliter", "centilitre"]⟩]),
    ("weight",
      [⟨"g", true, "g", ["gram", "gm"]⟩,
       ⟨"kg", true, "kg", ["kilo", "kilogram"]⟩]),
    ("quantity",
      [⟨"pack", false, "pack", ["pk"]⟩,
       ⟨"piece", false, "pc", ["piece", "pcs"]⟩]) ]

/-- Case-insensitive literal match (`re.IGNORECASE`) at the head of the
input, returning the rest. -/
def litMatchCI : List Char → List Char → Option (List Char)
  | [], cs => some cs
  | _ :: _, [] => none
  | l :: ls, c :: cs => if toLowerAsc l = toLowerAsc c then litMatchCI ls cs else none

/-- Match `(\d+[.digits]?)\s*SUF` at the head of the input, returning the
captured numeric group.  The only backtracking point of the source pattern
is the optional `\.?`: greedy first (with its `\d*`), then without. -/
def numUnitAt (dec : Bool) (suf : List Char) (cs : List Char) : Option (List Char) :=
  let ds := cs.takeWhile Char.isDigit
  if ds = [] then none
  else
    let rest1 := cs.dropWhile Char.isDigit
    let tryRest := fun (grp r : List Char) =>
      if (litMatchCI suf (r.dropWhile Char.isWhitespace)).isSome then some grp else none
    if dec then
      match rest1 with
      | '.' :: r2 =>
        let fs := r2.takeWhile Char.isDigit
        match tryRest (ds ++ '.' :: fs) (r2.dropWhile Char.isDigit) with
        | some g => some g
        | none => tryRest ds rest1
      | _ => tryRest ds rest1
    else tryRest ds rest1

/-- `re.search` of one unit pattern: at the leftmost matching position,
`some (some grp)` when the numeric alternative matches (preferring it over
the groupless literal alternatives at the same position, as regex
alternation does), `some none` when only a groupless literal matches there,
`none` when nothing matches anywhere. -/
def searchUnitPat (dec : Bool) (suf : List Char) (lits : List (List Char)) :
    List (List Char) → Option (Option (List Char))
  | [] => none
  | pos :: rest =>
    match numUnitAt dec suf pos with
    | some g => some (some g)
    | none =>
      if lits.any (fun l => (litMatchCI l pos).isSome) then some none
      else searchUnitPat dec suf lits rest

/-- Scan the unit patterns of one unit type; a match without a captured
group (`match.group(1)` falsy) falls through to the next pattern, as the
source's `if match and match.group(1)` does. -/
def findUnitIn (uty : String) (cs : List Char) : List UnitPat → Option UnitInfo
  | [] => none
  | p :: ps =>
    match searchUnitPat p.dec p.suffixTok.data (p.lits.map String.data) (suffixes cs) with
    | some (some grp) =>
      -- `float(match.group(1))` cannot fail on `\d+\.?\d*`, but the source
      -- guards it with `except: continue`; mirror that guard.
      match pyFloat? (String.mk grp) with
      | some v => some ⟨uty, p.key, v⟩
      | none => findUnitIn uty cs ps
    | _ => findUnitIn uty cs ps

/-- Scan the unit types in order. -/
def findUnit (cs : List Char) : List (String × List UnitPat) → Option UnitInfo
  | [] => none
  | (uty, ps) :: rest =>
    match findUnitIn uty cs ps with
    | some r => some r
    | none => findUnit cs rest

/-- `DataProcessor.normalize_units` (src/utils/data_processor.py:175-206):
returns the zero default `{unit_type: '', unit: '', value: 0}` on an empty
(falsy) or non-string name and whenever no pattern captures a numeric
group; otherwise the first matching pattern's type, unit key and raw parsed
value — exactly as captured, with no unit conversion.  The searches run on
the raw name, case-insensitively (`re.IGNORECASE`). -/
def normalize_units (product_name : String) : UnitInfo :=
  if product_name = "" then ⟨"", "", 0⟩
  else (findUnit product_name.data unit_patterns).getD ⟨"", "", 0⟩

/-! ### Processed records and pandas-`groupby` modelling -/

/-- A Processed Record: the columns of the DataFrame that
`DataProcessor.process_data` builds and the pipeline consumes.
`timestamp` is in days, `sales_rank`/`view_count` carry the randomly drawn
scores (their draws are parameters of `process_data`). -/
structure Rec where
  product_name : String
  orig_category : String
  category : String
  price : ℚ
  source : String
  timestamp : ℤ
  sales_rank : ℚ
  unit_type : String
  unit : String
  unit_value : ℚ
  view_count : ℚ
deriving DecidableEq

/-- Code-point lexicographic strict order on char lists (the order Python
uses to compare `str`s, hence the order of pandas group keys). -/
def strLtB : List Char → List Char → Bool
  | [], [] => false
  | [], _ :: _ => true
  | _ :: _, [] => false
  | a :: as, b :: bs =>
    if a.val < b.val then true
    else if b.val < a.val then false
    else strLtB as bs

/-- Sort strings ascending by code point. -/
def sortStrings (l : List String) : List String :=
  List.insertionSort (fun a b => strLtB b.data a.data = false) l

/-- The distinct keys of a column, in ascending order — the groups that
pandas `groupby` emits. -/
def keysOf (cats : List String) : List String := sortStrings cats.dedup

/-- `df.groupby(cat)`: one sub-list per distinct key, ascending key order,
row order preserved within a group. -/
def groupByCat {α : Type} (cat : α → String) (df : List α) : List (List α) :=
  (keysOf (df.map cat)).map (fun c => df.filter (fun r => cat r = c))

/-! ### `DataProcessor.deduplicate_products` -/

/-- Similarity test between two records' lower-cased names, as the inner
loop of `deduplicate_products` computes it (`similarity > 80`). -/
def dupTest (sim : String → String → ℕ) (a b : Rec) : Bool :=
  80 < sim (String.mk (lowerStr a.product_name)) (String.mk (lowerStr b.product_name))

/-- The greedy clustering both `deduplicate_products` and the
recommendation engine's `find_duplicates` perform: the first unprocessed
row seeds a cluster holding every later unprocessed row passing `test`
against it (rows before the seed are always processed already, so
partitioning the tail is exactly the source's `processed_indices` / 
`matched` bookkeeping).  The `fuel` argument keeps the recursion
structural; `fuel = |rows|` always suffices since the remainder is a
sublist of the tail. -/
def greedyClustersAux {α : Type} (test : α → α → Bool) : ℕ → List α → List (List α)
  | _, [] => []
  | 0, _ :: _ => []
  | n + 1, r :: rest =>
    (r :: rest.filter (fun x => test r x)) ::
      greedyClustersAux test n (rest.filter (fun x => !(test r x)))

/-- Greedy similarity clusters of a category group (threshold `> 80`). -/
def clustersBy (sim : String → String → ℕ) (g : List Rec) : List (List Rec) :=
  greedyClustersAux (dupTest sim) g.length g

/-- Sort records by `sales_rank` descending
(`sort_values('sales_rank', ascending=False)`). -/
def sortBySalesRank (g : List Rec) : List Rec :=
  List.insertionSort (fun a b => b.sales_rank ≤ a.sales_rank) g

/-- The cluster representative: the record with the highest `sales_rank`
(`.iloc[0]` of the descending sort; ties resolved as a stable sort does —
the random tie-breaker inside `sales_rank` makes ties a measure-zero event
in the source). -/
def clusterRep (g : List Rec) : Option Rec := (sortBySalesRank g).head?

/-- Deduplicate one category group: groups of one row pass through, larger
groups are clustered and each cluster collapsed to its representative. -/
def dedupGroup (sim : String → String → ℕ) (g : List Rec) : List Rec :=
  if g.length ≤ 1 then g
  else (clustersBy sim g).filterMap clusterRep

/-- `DataProcessor.deduplicate_products` (src/utils/data_processor.py:208-290),
parameterized by the string-similarity function (instantiated with
`fuzzRatio` for `fuzz.ratio`). -/
def deduplicate_products (sim : String → String → ℕ) (df : List Rec) : List Rec :=
  ((groupByCat Rec.category df).map (dedupGroup sim)).flatten

/-! ### `DataProcessor.process_data` -/

/-- A Raw Record as handed to `process_data`: the fields the modelled
pipeline reads (the remaining optional columns are dropped unchanged or
filled, and no claim mentions them). -/
structure RawRec where
  product_name : String
  price : PriceIn
  category : String
  source : String
deriving DecidableEq

/-- Python `str.strip()`. -/
def pyStrip (s : String) : String := String.mk (stripWs s.data)

/-- Normalization of one raw record, as the column-wise steps of
`process_data` act on one row: strip the name, normalize the price,
re-categorize (on the stripped name, which is assigned first), extract
units, and attach the drawn `sales_rank`/`view_count` and the run
timestamp. -/
def processRow (now : ℤ) (rank view : ℚ) (p : RawRec) : Rec :=
  let name := pyStrip p.product_name
  let u := normalize_units name
  { product_name := name
    orig_category := p.category
    category := categorize_product name p.category
    price := normalize_price p.price
    source := p.source
    timestamp := now
    sales_rank := rank
    unit_type := u.unit_type
    unit := u.unit
    unit_value := u.value
    view_count := view }

/-- `DataProcessor.process_data` (src/utils/data_processor.py:292-361):
empty input returns an empty frame; otherwise normalize every row and
deduplicate.  `rank`/`view` supply the `np.random` draws per row index;
the `fillna` pass is a no-op in the model since every modelled column is
total, and the `except` wrapper never fires in the modelled fragment. -/
def process_data (sim : String → String → ℕ) (now : ℤ) (rank view : ℕ → ℚ)
    (products : List RawRec) : List Rec :=
  if products = [] then []
  else deduplicate_products sim
    (products.enum.map (fun ip => processRow now (rank ip.1) (view ip.1) ip.2))

/-! ### `DataProcessor.update_historical_data` -/

/-- `DataProcessor.update_historical_data`
(src/utils/data_processor.py:398-448).  `file` is the on-disk ledger —
`none` when `historical_products.csv` does not exist yet; the result is the
ledger written back.  Timestamps are in days; `now - 90` is the
`cutoff_date`.  When the file exists: append, sort by timestamp descending,
and keep rows with `timestamp >= cutoff`.  When it does not: the new batch
is written as-is. -/
def update_historical_data (file : Option (List Rec)) (now : ℤ) (new_data : List Rec) :
    List Rec :=
  match file with
  | none => new_data
  | some hist =>
    (List.insertionSort (fun a b => b.timestamp ≤ a.timestamp) (hist ++ new_data)).filter
      (fun r => now - 90 ≤ r.timestamp)

/-! ### `PricePredictor` (src/utils/ml_price_predictor.py) -/

/-- Per-category learned parameters (`self.model_weights[category]`). -/
structure ModelW where
  trend_factor : ℚ
  seasonality : List (ℕ × ℚ)
  volatility : ℚ
deriving DecidableEq

/-- The predictor's mutable state: `historical_data`, `is_trained`,
`model_weights`. -/
structure Predictor where
  historical : Option (List Rec)
  is_trained : Bool
  model_weights : List (String × ModelW)
deriving DecidableEq

/-- `PricePredictor.train` (src/utils/ml_price_predictor.py:33-72): an
explicit `df` replaces the stored history; `None` history or fewer than 10
rows returns `False` before anything else changes; otherwise the weights
are fitted and `is_trained` set.  The fitting itself
(`_prepare_data`/`_calculate_trend_factor`/...) is abstracted as the
parameter `cw`; every theorem below holds for all `cw`. -/
def train (cw : List Rec → List (String × ModelW)) (p : Predictor)
    (df : Option (List Rec)) : Bool × Predictor :=
  let p1 := match df with
    | some d => { p with historical := some d }
    | none => p
  match p1.historical with
  | none => (false, p1)
  | some hist =>
    if hist.length < 10 then (false, p1)
    else (true, { p1 with is_trained := true, model_weights := cw hist })

/-- The per-product price computation of `predict_prices`
(src/utils/ml_price_predictor.py:240-254): apply the drawn `price_change`,
floor at half the current price, and store `round(..., 2)`. -/
def predictOne (current price_change : ℚ) : ℚ :=
  pyRound2 (max (current * (1 + price_change)) (current * (1/2)))

/-- One output row of a successful prediction (`confidence` is omitted: no
claim mentions it). -/
structure PredRow where
  row : Rec
  predicted_price : ℚ
  price_trend : String
deriving DecidableEq

/-- The two shapes `predict_prices` returns: the input DataFrame unchanged
(when training failed — the failure signal) or the copy extended with
prediction columns. -/
inductive PredictResult where
  | untrained (df : List Rec)
  | predicted (rows : List PredRow)
deriving DecidableEq

/-- `PricePredictor.predict_prices` (src/utils/ml_price_predictor.py:187-269):
auto-train on the input when untrained; if still untrained, return the
input unchanged.  `pc r` is the per-product `price_change`
(`trend × days/30 × seasonality + Gaussian noise`) — a parameter, since the
claims quantify over every draw of the noise. -/
def predict_prices (cw : List Rec → List (String × ModelW)) (pc : Rec → ℚ)
    (p : Predictor) (df : List Rec) : PredictResult × Predictor :=
  let p1 := if p.is_trained then p else (train cw p (some df)).2
  if p1.is_trained then
    (.predicted (df.map (fun r =>
      { row := r
        predicted_price := predictOne r.price (pc r)
        price_trend :=
          if 1/20 < pc r then "Rising"
          else if pc r < -(1/20) then "Falling"
          else "Stable" })), p1)
  else (.untrained df, p1)

/-! ### Recommendation engine (src/utils/recommendation_engine.py) -/

/-- The product columns `get_top_recommendations` reads. -/
structure RRec where
  product_name : String
  category : String
  price : ℚ
  rating : Option ℚ
  review_count : Option ℚ
  view_count : Option ℚ
  discount_percentage : Option ℚ
  availability : Option String
deriving DecidableEq

/-- A row after the cross-site grouping pass: the input row plus the
`site_count` / `recommended_price` columns it sets. -/
structure GRec where
  base : RRec
  site_count : ℕ
  recommended_price : ℚ
deriving DecidableEq

/-- A fully scored row: what the final slate is made of. -/
structure SRec where
  product_name : String
  category : String
  price : ℚ
  rating : Option ℚ
  review_count : Option ℚ
  view_count : Option ℚ
  discount_percentage : Option ℚ
  availability : Option String
  site_count : ℕ
  recommended_price : ℚ
  score : ℚ
deriving DecidableEq

/-- Python `needle in haystack` on strings. -/
def containsSub (needle hay : List Char) : Bool :=
  (suffixes hay).any (fun suf => (litMatch needle suf).isSome)

/-- `calculate_score` (src/utils/recommendation_engine.py:19-78) on a row
carrying a `site_count` (the grouping pass has set it on every row, so the
source's missing-`site_count` fallback of `+0.1` is unreachable in the
`get_top_recommendations` flow).  Weighted sum of rating, review/view
count, site count and discount, then multiplicative availability
adjustments on the lower-cased availability text. -/
def calculate_score (r : RRec) (site_count : ℕ) : ℚ :=
  let s1 := match r.rating with
    | some rt => rt / 5 * (0.4 : ℚ)
    | none => 0
  let s2 := match r.review_count with
    | some rc => min rc 100 / 100 * (0.3 : ℚ)
    | none =>
      match r.view_count with
      | some vc => min vc 1000 / 1000 * (0.3 : ℚ)
      | none => (0.15 : ℚ)
  let s3 := min (site_count : ℚ) 5 / 5 * (0.3 : ℚ)
  let s4 := match r.discount_percentage with
    | some d => if 0 < d then min d 80 / 80 * (0.1 : ℚ) else 0
    | none => 0
  let base := s1 + s2 + s3 + s4
  match r.availability with
  | none => base
  | some av =>
    let a := lowerStr av
    let m1 :=
      if containsSub "out of stock".data a ∨ containsSub "sold out".data a then (0.1 : ℚ)
      else if containsSub "limited stock".data a ∨ containsSub "low stock".data a then (0.7 : ℚ)
      else if containsSub "in stock".data a ∨ containsSub "available".data a then (1.3 : ℚ)
      else 1
    let m2 :=
      if containsSub "high stock".data a ∨ containsSub "plenty".data a ∨
          containsSub "most stock".data a then (1.5 : ℚ)
      else 1
    base * m1 * m2

/-- Similarity test of the cross-site grouping pass (`find_duplicates`),
threshold `similarity >= 80` — one point laxer than the deduplicator's
`> 80`. -/
def siteDupTest (sim : String → String → ℕ) (a b : RRec) : Bool :=
  80 ≤ sim (String.mk (lowerStr a.product_name)) (String.mk (lowerStr b.product_name))

/-- Mean of a list of rationals (`np.mean`). -/
def rmean (xs : List ℚ) : ℚ := xs.sum / xs.length

/-- The cross-site pass on one category group (`find_duplicates`): cluster
the rows greedily at `>= 80` name-similarity; rows of a multi-row group get
`site_count := |group|` and `recommended_price := mean(prices) * 1.05`;
singleton groups keep `site_count = 1` and get `price * 1.05`.  The source
updates columns in place, so the original row order is restored by the
index sort. -/
def sitePass (sim : String → String → ℕ) (g : List RRec) : List GRec :=
  let tagged := (greedyClustersAux (fun a b => siteDupTest sim a.2 b.2)
      g.enum.length g.enum).flatMap (fun cl =>
    if 1 < cl.length then
      let rp := rmean (cl.map (fun x => x.2.price)) * (1.05 : ℚ)
      cl.map (fun x => (x.1, GRec.mk x.2 cl.length rp))
    else
      cl.map (fun x => (x.1, GRec.mk x.2 1 (x.2.price * (1.05 : ℚ)))))
  (List.insertionSort (fun a b => a.1 ≤ b.1) tagged).map (fun x => x.2)

/-- Attach the composite score to every row. -/
def scorePass (g : List GRec) : List SRec :=
  g.map (fun x =>
    { product_name := x.base.product_name
      category := x.base.category
      price := x.base.price
      rating := x.base.rating
      review_count := x.base.review_count
      view_count := x.base.view_count
      discount_percentage := x.base.discount_percentage
      availability := x.base.availability
      site_count := x.site_count
      recommended_price := x.recommended_price
      score := calculate_score x.base x.site_count })

/-- Sort rows by `score` descending. -/
def sortByScore (g : List SRec) : List SRec :=
  List.insertionSort (fun a b => b.score ≤ a.score) g

/-- The per-category slate selection of `get_top_recommendations`
(src/utils/recommendation_engine.py:203-226): take the top `N` by score;
when fewer than `N` (and at least one) remain, duplicate up to
`min(needed, |top|)` of the top scorers once, suffixing `" (Similar)"` to
their names, and cap at `N`.  The padding runs once, not to a fixed point. -/
def slate (topn : ℕ) (g : List SRec) : List SRec :=
  let top := (sortByScore g).take topn
  if top.length < topn ∧ 0 < top.length then
    let needed := topn - top.length
    let extras := ((sortByScore top).take (min needed top.length)).map
      (fun r => { r with product_name := r.product_name ++ " (Similar)" })
    (top ++ extras).take topn
  else top

/-- `get_top_recommendations` (src/utils/recommendation_engine.py:80-235),
parameterized by the similarity function: empty input gives an empty frame;
otherwise the per-category cross-site pass, then scoring (row-wise, hence
computed here inside each group), then the per-category slates,
concatenated in pandas' ascending key order.  The final
`sort_values(['category','score'])` re-sorts rows the slates already
grouped by category; it does not change any per-category row multiset, and
no claim concerns the inter-row order, so it is not re-applied here. -/
def get_top_recommendations (sim : String → String → ℕ) (df : List RRec) (topn : ℕ) :
    List SRec :=
  if df = [] then []
  else
    ((groupByCat RRec.category df).map
      (fun g => slate topn (scorePass (sitePass sim g)))).flatten

/-! ## Helper lemmas -/

theorem roundHalfEven_ge (q : ℚ) : q - 1/2 ≤ (roundHalfEven q : ℚ) := by
  have h1 : (⌊q⌋ : ℚ) ≤ q := Int.floor_le q
  have h2 : q < ⌊q⌋ + 1 := Int.lt_floor_add_one q
  unfold roundHalfEven
  split_ifs with hf1 hf2 hf3
  · linarith
  · push_cast
    linarith
  · linarith
  · push_cast
    linarith

theorem pyRound2_ge (q : ℚ) : q - 1/200 ≤ pyRound2 q := by
  have h := roundHalfEven_ge (100 * q)
  unfold pyRound2
  linarith

theorem greedyClustersAux_mem_mem {α : Type} (test : α → α → Bool) :
    ∀ (n : ℕ) (l c : List α), c ∈ greedyClustersAux test n l → ∀ x ∈ c, x ∈ l := by
  intro n
  induction n with
  | zero =>
    intro l c hc
    cases l <;> simp [greedyClustersAux] at hc
  | succ n ih =>
    intro l c hc x hx
    cases l with
    | nil => simp [greedyClustersAux] at hc
    | cons r rest =>
      simp only [greedyClustersAux, List.mem_cons] at hc
      rcases hc with hc | hc
      · subst hc
        rcases List.mem_cons.1 hx with hx | hx
        · simp [hx]
        · exact List.mem_cons_of_mem _ (List.mem_of_mem_filter hx)
      · exact List.mem_cons_of_mem _
          (List.mem_of_mem_filter (ih _ _ hc x hx))

theorem greedyClustersAux_sum_length {α : Type} (test : α → α → Bool) :
    ∀ (n : ℕ) (l : List α), l.length ≤ n →
      ((greedyClustersAux test n l).map List.length).sum = l.length := by
  intro n
  induction n with
  | zero =>
    intro l hl
    have : l = [] := List.length_eq_zero.1 (Nat.le_zero.1 hl)
    subst this
    simp [greedyClustersAux]
  | succ n ih =>
    intro l hl
    cases l with
    | nil => simp [greedyClustersAux]
    | cons r rest =>
      have hsplit : rest.length = (rest.filter (fun x => test r x)).length +
          (rest.filter (fun x => !(test r x))).length :=
        List.length_eq_length_filter_add _
      have hle : (rest.filter (fun x => !(test r x))).length ≤ n := by
        have := List.length_filter_le (fun x => !(test r x)) rest
        simp only [List.length_cons] at hl
        omega
      have := ih (rest.filter (fun x => !(test r x))) hle
      simp only [greedyClustersAux, List.map_cons, List.sum_cons, this,
        List.length_cons]
      omega

theorem greedyClustersAux_count_le {α : Type} (test : α → α → Bool) :
    ∀ (n : ℕ) (l : List α), (greedyClustersAux test n l).length ≤ l.length := by
  intro n
  induction n with
  | zero =>
    intro l
    cases l <;> simp [greedyClustersAux]
  | succ n ih =>
    intro l
    cases l with
    | nil => simp [greedyClustersAux]
    | cons r rest =>
      have h1 := ih (rest.filter (fun x => !(test r x)))
      have h2 := List.length_filter_le (fun x => !(test r x)) rest
      simp only [greedyClustersAux, List.length_cons]
      omega

theorem greedyClustersAux_shape {α : Type} (test : α → α → Bool) :
    ∀ (n : ℕ) (l c : List α), c ∈ greedyClustersAux test n l →
      ∃ s t, c = s :: t ∧ ∀ x ∈ t, test s x = true := by
  intro n
  induction n with
  | zero =>
    intro l c hc
    cases l <;> simp [greedyClustersAux] at hc
  | succ n ih =>
    intro l c hc
    cases l with
    | nil => simp [greedyClustersAux] at hc
    | cons r rest =>
      simp only [greedyClustersAux, List.mem_cons] at hc
      rcases hc with hc | hc
      · exact ⟨r, _, hc, fun x hx => List.of_mem_filter hx⟩
      · exact ih _ _ hc

theorem greedyClustersAux_seeds_pairwise {α : Type} (test : α → α → Bool) :
    ∀ (n : ℕ) (l : List α),
      (greedyClustersAux test n l).Pairwise
        (fun c1 c2 => ∀ s1 s2, c1.head? = some s1 → c2.head? = some s2 →
          test s1 s2 = false) := by
  intro n
  induction n with
  | zero =>
    intro l
    cases l <;> simp [greedyClustersAux]
  | succ n ih =>
    intro l
    cases l with
    | nil => simp [greedyClustersAux]
    | cons r rest =>
      simp only [greedyClustersAux]
      refine List.Pairwise.cons ?_ (ih _)
      intro c2 hc2 s1 s2 hs1 hs2
      have hs1r : r = s1 := by
        simpa using hs1
      have hs2mem : s2 ∈ c2 := List.mem_of_mem_head? hs2
      have hmem : s2 ∈ rest.filter (fun x => !(test r x)) :=
        greedyClustersAux_mem_mem test n _ c2 hc2 s2 hs2mem
      have := List.of_mem_filter hmem
      rw [← hs1r]
      simpa using this

theorem mem_keysOf {c : String} {cs : List String} : c ∈ keysOf cs ↔ c ∈ cs := by
  unfold keysOf sortStrings
  rw [List.mem_insertionSort]
  exact List.mem_dedup

theorem keysOf_nodup (cs : List String) : (keysOf cs).Nodup :=
  (List.perm_insertionSort _ _).nodup_iff.mpr (List.nodup_dedup cs)

theorem sum_length_filter {α : Type} (cat : α → String) :
    ∀ (keys : List String) (df : List α), keys.Nodup → (∀ r ∈ df, cat r ∈ keys) →
      (keys.map (fun c => (df.filter (fun r => cat r = c)).length)).sum = df.length := by
  intro keys
  induction keys with
  | nil =>
    intro df _ hcov
    cases df with
    | nil => simp
    | cons r rest => exact absurd (hcov r (List.mem_cons_self r rest)) (by simp)
  | cons c ks ih =>
    intro df hnd hcov
    have hc_not : c ∉ ks := (List.nodup_cons.1 hnd).1
    have hks_nd : ks.Nodup := (List.nodup_cons.1 hnd).2
    have hstep : ∀ c' ∈ ks,
        df.filter (fun r => cat r = c') =
          (df.filter (fun r => !(cat r = c))).filter (fun r => cat r = c') := by
      intro c' hc'
      have hcc : c' ≠ c := fun h => hc_not (h ▸ hc')
      rw [List.filter_filter]
      apply List.filter_congr
      intro a _
      by_cases h : cat a = c'
      · have hne : ¬ cat a = c := fun hh => hcc (by rw [← h, hh])
        simp [h, hne, hcc]
      · simp [h]
    have hcov' : ∀ r ∈ df.filter (fun r => !(cat r = c)), cat r ∈ ks := by
      intro r hr
      have hmem := List.mem_of_mem_filter hr
      have hne : ¬ (cat r = c) := by
        have := List.of_mem_filter hr
        simpa using this
      rcases List.mem_cons.1 (hcov r hmem) with h | h
      · exact absurd h hne
      · exact h
    have hmap : ks.map (fun c' => (df.filter (fun r => cat r = c')).length) =
        ks.map (fun c' =>
          ((df.filter (fun r => !(cat r = c))).filter (fun r => cat r = c')).length) := by
      apply List.map_congr_left
      intro c' hc'
      rw [hstep c' hc']
    have hsum := ih (df.filter (fun r => !(cat r = c))) hks_nd hcov'
    have hsplit : df.length = (df.filter (fun r => cat r = c)).length +
        (df.filter (fun r => !(cat r = c))).length :=
      List.length_eq_length_filter_add _
    simp only [List.map_cons, List.sum_cons, hmap, hsum]
    omega

theorem length_flatMap' {α β : Type} (f : α → List β) :
    ∀ l : List α, (l.flatMap f).length = (l.map (fun x => (f x).length)).sum := by
  intro l
  induction l with
  | nil => simp
  | cons a l ih => simp [List.flatMap_cons, ih]

theorem filter_flatten' {α : Type} (p : α → Bool) :
    ∀ L : List (List α), L.flatten.filter p = (L.map (List.filter p)).flatten := by
  intro L
  induction L with
  | nil => simp
  | cons g L ih => simp [List.filter_append, ih]

theorem sum_single (f : String → ℕ) :
    ∀ (keys : List String) (c : String), keys.Nodup → c ∈ keys →
      (∀ c' ∈ keys, c' ≠ c → f c' = 0) → (keys.map f).sum = f c := by
  intro keys
  induction keys with
  | nil => intro c _ hc; simp at hc
  | cons k ks ih =>
    intro c hnd hc h0
    rcases List.mem_cons.1 hc with hkc | hc'
    · subst hkc
      have hzero : (ks.map f).sum = 0 := by
        apply List.sum_eq_zero
        intro x hx
        rcases List.mem_map.1 hx with ⟨c', hc', rfl⟩
        exact h0 c' (List.mem_cons_of_mem _ hc')
          (fun h => (List.nodup_cons.1 hnd).1 (h ▸ hc'))
      simp [hzero]
    · have hkne : k ≠ c := fun h => (List.nodup_cons.1 hnd).1 (h ▸ hc')
      have hk0 : f k = 0 := h0 k (List.mem_cons_self _ _) hkne
      have := ih c (List.nodup_cons.1 hnd).2 hc'
        (fun c' h1 h2 => h0 c' (List.mem_cons_of_mem _ h1) h2)
      simp [hk0, this]

theorem groupByCat_sum_length {α : Type} (cat : α → String) (df : List α) :
    ((groupByCat cat df).map List.length).sum = df.length := by
  unfold groupByCat
  rw [List.map_map]
  have := sum_length_filter cat (keysOf (df.map cat)) df (keysOf_nodup _)
    (fun r hr => mem_keysOf.mpr (List.mem_map_of_mem _ hr))
  simpa [Function.comp] using this

theorem mem_groupByCat {α : Type} {cat : α → String} {df : List α} {g : List α}
    (hg : g ∈ groupByCat cat df) : ∃ c, g = df.filter (fun r => cat r = c) := by
  unfold groupByCat at hg
  rcases List.mem_map.1 hg with ⟨c, _, rfl⟩
  exact ⟨c, rfl⟩

theorem dedupGroup_length_le (sim : String → String → ℕ) (g : List Rec) :
    (dedupGroup sim g).length ≤ g.length := by
  unfold dedupGroup
  split
  · exact le_refl _
  · calc ((clustersBy sim g).filterMap clusterRep).length
        ≤ (clustersBy sim g).length := List.length_filterMap_le _ _
      _ ≤ g.length := greedyClustersAux_count_le _ _ _

theorem dedupGroup_mem {sim : String → String → ℕ} {g : List Rec} {r : Rec}
    (h : r ∈ dedupGroup sim g) : r ∈ g := by
  unfold dedupGroup at h
  split at h
  · exact h
  · rcases List.mem_filterMap.1 h with ⟨c, hc, hrep⟩
    unfold clusterRep at hrep
    have hrs : r ∈ sortBySalesRank c := List.mem_of_mem_head? hrep
    have hrc : r ∈ c := (List.mem_insertionSort _).1 hrs
    exact greedyClustersAux_mem_mem _ _ _ _ hc r hrc

theorem deduplicate_products_length_le (sim : String → String → ℕ) (df : List Rec) :
    (deduplicate_products sim df).length ≤ df.length := by
  unfold deduplicate_products
  rw [List.length_flatten, List.map_map]
  calc ((groupByCat Rec.category df).map (List.length ∘ dedupGroup sim)).sum
      ≤ ((groupByCat Rec.category df).map List.length).sum := by
        apply List.sum_le_sum
        intro g _
        exact dedupGroup_length_le sim g
    _ = df.length := groupByCat_sum_length _ _

theorem deduplicate_products_mem {sim : String → String → ℕ} {df : List Rec} {r : Rec}
    (h : r ∈ deduplicate_products sim df) : r ∈ df := by
  unfold deduplicate_products at h
  rcases List.mem_flatten.1 h with ⟨gl, hgl, hr⟩
  rcases List.mem_map.1 hgl with ⟨g, hgmem, rfl⟩
  have hrg : r ∈ g := dedupGroup_mem hr
  rcases mem_groupByCat hgmem with ⟨c, rfl⟩
  exact List.mem_of_mem_filter hrg

theorem siteTag_length (cl : List (ℕ × RRec)) :
    ((if 1 < cl.length then
      cl.map (fun x => (x.1, GRec.mk x.2 cl.length
        (rmean (cl.map (fun y => y.2.price)) * (1.05 : ℚ))))
    else cl.map (fun x => (x.1, GRec.mk x.2 1 (x.2.price * (1.05 : ℚ)))))).length
      = cl.length := by
  split <;> simp

theorem sitePass_length (sim : String → String → ℕ) (g : List RRec) :
    (sitePass sim g).length = g.length := by
  simp only [sitePass]
  rw [List.length_map, List.length_insertionSort, length_flatMap']
  have hcong : (greedyClustersAux (fun a b => siteDupTest sim a.2 b.2)
        g.enum.length g.enum).map (fun cl =>
          (if 1 < cl.length then
            cl.map (fun x => (x.1, GRec.mk x.2 cl.length
              (rmean (cl.map (fun y => y.2.price)) * (1.05 : ℚ))))
          else cl.map (fun x => (x.1, GRec.mk x.2 1 (x.2.price * (1.05 : ℚ))))).length)
      = (greedyClustersAux (fun a b => siteDupTest sim a.2 b.2)
          g.enum.length g.enum).map List.length := by
    apply List.map_congr_left
    intro cl _
    exact siteTag_length cl
  rw [hcong, greedyClustersAux_sum_length _ _ _ (le_refl _), List.enum_length]

theorem sitePass_base_mem {sim : String → String → ℕ} {g : List RRec} {x : GRec}
    (h : x ∈ sitePass sim g) : x.base ∈ g := by
  simp only [sitePass] at h
  rcases List.mem_map.1 h with ⟨p, hp, rfl⟩
  have hp2 := (List.mem_insertionSort _).1 hp
  rcases List.mem_flatMap.1 hp2 with ⟨cl, hcl, hpin⟩
  have hbase : ∃ y ∈ cl, p.2.base = y.2 := by
    split at hpin <;>
      (rcases List.mem_map.1 hpin with ⟨y, hy, rfl⟩; exact ⟨y, hy, rfl⟩)
  rcases hbase with ⟨y, hy, hb⟩
  have hyy : y ∈ g.enum := greedyClustersAux_mem_mem _ _ _ _ hcl y hy
  rw [hb]
  exact List.snd_mem_of_mem_enum hyy

theorem scorePass_length (g : List GRec) : (scorePass g).length = g.length :=
  List.length_map _ _

theorem scorePass_cat {g : List GRec} {x : SRec} (h : x ∈ scorePass g) :
    ∃ y ∈ g, x.category = y.base.category := by
  unfold scorePass at h
  rcases List.mem_map.1 h with ⟨y, hy, rfl⟩
  exact ⟨y, hy, rfl⟩

theorem block_cat {sim : String → String → ℕ} {g : List RRec} {c : String}
    (hg : ∀ r ∈ g, r.category = c) :
    ∀ x ∈ scorePass (sitePass sim g), x.category = c := by
  intro x hx
  rcases scorePass_cat hx with ⟨y, hy, hcat⟩
  rw [hcat]
  exact hg _ (sitePass_base_mem hy)

theorem slate_cat {topn : ℕ} {g : List SRec} {c : String}
    (hg : ∀ r ∈ g, r.category = c) : ∀ r ∈ slate topn g, r.category = c := by
  have hsorted : ∀ r ∈ sortByScore g, r.category = c := fun r hr =>
    hg r ((List.mem_insertionSort _).1 hr)
  have htop : ∀ r ∈ (sortByScore g).take topn, r.category = c := fun r hr =>
    hsorted r (List.mem_of_mem_take hr)
  intro r hr
  simp only [slate] at hr
  split at hr
  · rcases List.mem_append.1 (List.mem_of_mem_take hr) with hr2 | hr2
    · exact htop r hr2
    · rcases List.mem_map.1 hr2 with ⟨y, hy, rfl⟩
      have : y ∈ (sortByScore g).take topn :=
        (List.mem_insertionSort _).1 (List.mem_of_mem_take hy)
      exact htop y this
  · exact htop r hr

theorem slate_length (topn : ℕ) (g : List SRec) :
    (slate topn g).length = min topn (2 * g.length) := by
  simp only [slate, sortByScore]
  split_ifs with h <;>
    simp only [List.length_take, List.length_append, List.length_map,
      List.length_insertionSort] at h ⊢ <;>
    omega

theorem searchPat_catchall (cs : List Char) : searchPat [([] : List Tok)] cs = true := by
  cases cs with
  | nil => rfl
  | cons c cs => simp [searchPat, suffixes, matchToks]

theorem firstRuleMatch_append (T1 T2 : List (List (List Tok) × String)) (cs : List Char) :
    firstRuleMatch (T1 ++ T2) cs =
      match firstRuleMatch T1 cs with
      | some c => some c
      | none => firstRuleMatch T2 cs := by
  induction T1 with
  | nil => simp [firstRuleMatch]
  | cons p T1 ih =>
    rcases p with ⟨pat, cat⟩
    simp only [List.cons_append, firstRuleMatch]
    split <;> simp [ih]

/-- The terminal catch-all makes the first (name) pass of the rule table
total: `categorize_product` is the first specific rule matching the name,
else `"other"` — the source-category fallback is unreachable. -/
theorem categorize_product_eq (n c : String) :
    categorize_product n c =
      if n = "" then "other"
      else (firstRuleMatch specific_category_mappings (lowerStr n)).getD "other" := by
  unfold categorize_product category_mappings
  split
  · rfl
  · rw [firstRuleMatch_append]
    cases h : firstRuleMatch specific_category_mappings (lowerStr n) with
    | some cc => simp
    | none => simp [firstRuleMatch, searchPat_catchall]

/-- The fixed canonical category set of the spec's data model. -/
def canonical_categories : List String :=
  ["beverages", "soft-drinks", "detergents", "snacks", "personal-care", "food", "other"]

theorem firstRuleMatch_mem_snd :
    ∀ (T : List (List (List Tok) × String)) (cs : List Char) (c : String),
      firstRuleMatch T cs = some c → c ∈ T.map Prod.snd := by
  intro T
  induction T with
  | nil => intro cs c h; simp [firstRuleMatch] at h
  | cons p T ih =>
    intro cs c h
    rcases p with ⟨pat, cat⟩
    simp only [firstRuleMatch] at h
    split at h
    · simp only [Option.some.injEq] at h
      simp [h]
    · exact List.mem_cons_of_mem _ (ih cs c h)

theorem categorize_mem_canonical (n c : String) :
    categorize_product n c ∈ canonical_categories := by
  rw [categorize_product_eq]
  split
  · decide
  · cases h : firstRuleMatch specific_category_mappings (lowerStr n) with
    | none => simp only [Option.getD]; decide
    | some cc =>
      have hmem := firstRuleMatch_mem_snd _ _ _ h
      have hall : (specific_category_mappings.map Prod.snd).all
          (fun x => decide (x ∈ canonical_categories)) = true := by decide
      have := List.all_eq_true.1 hall cc hmem
      simpa using of_decide_eq_true this

theorem mem_of_mem_suffixes {cs suf : List Char} (h : suf ∈ suffixes cs) :
    ∀ x ∈ suf, x ∈ cs := by
  induction cs with
  | nil =>
    simp only [suffixes, List.mem_singleton] at h
    subst h
    simp
  | cons c cs ih =>
    simp only [suffixes, List.mem_cons] at h
    rcases h with rfl | h
    · exact fun x hx => hx
    · exact fun x hx => List.mem_cons_of_mem _ (ih h x hx)

theorem numUnitAt_no_digit {dec : Bool} {suf : List Char} {pos : List Char}
    (h : ∀ ch ∈ pos, ch.isDigit = false) : numUnitAt dec suf pos = none := by
  cases pos with
  | nil => cases dec <;> rfl
  | cons c cs =>
    have hc := h c (List.mem_cons_self c cs)
    simp [numUnitAt, List.takeWhile_cons, hc]

theorem searchUnitPat_no_digit {dec : Bool} {suf : List Char} {lits : List (List Char)}
    {L : List (List Char)} (h : ∀ pos ∈ L, numUnitAt dec suf pos = none) :
    ∀ g, searchUnitPat dec suf lits L ≠ some (some g) := by
  induction L with
  | nil => simp [searchUnitPat]
  | cons pos rest ih =>
    intro g
    simp only [searchUnitPat, h pos (List.mem_cons_self pos rest)]
    split
    · simp
    · exact ih (fun p hp => h p (List.mem_cons_of_mem _ hp)) g

theorem findUnitIn_no_digit {uty : String} {cs : List Char}
    (h : ∀ ch ∈ cs, ch.isDigit = false) :
    ∀ ps : List UnitPat, findUnitIn uty cs ps = none := by
  intro ps
  induction ps with
  | nil => rfl
  | cons p ps ih =>
    have hnum : ∀ pos ∈ suffixes cs, numUnitAt p.dec p.suffixTok.data pos = none :=
      fun pos hp => numUnitAt_no_digit (fun ch hch => h ch (mem_of_mem_suffixes hp ch hch))
    cases hs : searchUnitPat p.dec p.suffixTok.data (p.lits.map String.data) (suffixes cs) with
    | none => simp [findUnitIn, hs, ih]
    | some og =>
      cases og with
      | none => simp [findUnitIn, hs, ih]
      | some g => exact absurd hs (searchUnitPat_no_digit hnum g)

theorem findUnit_no_digit {cs : List Char} (h : ∀ ch ∈ cs, ch.isDigit = false) :
    ∀ tbl : List (String × List UnitPat), findUnit cs tbl = none := by
  intro tbl
  induction tbl with
  | nil => rfl
  | cons p tbl ih => simp [findUnit, findUnitIn_no_digit h, ih]

/-! ## Claim theorems -/

/-- C2, amended: `normalize_price` performs no character stripping.  It
returns `0.0` for `None` and for every string `float()` cannot parse —
including currency-formatted strings such as `"₦12,500.00"`, which yield
`0.0`, not `12500.0` — and returns the parsed value verbatim on
float-parseable strings.  It never raises (it is total). -/
theorem claim_C2_price_coercion :
    normalize_price (.pstr "₦12,500.00") = 0 ∧
    normalize_price (.pstr "") = 0 ∧
    normalize_price .pnone = 0 ∧
    (∀ s q, pyFloat? s = some q → normalize_price (.pstr s) = q) ∧
    (∀ s, pyFloat? s = none → normalize_price (.pstr s) = 0) := by
  refine ⟨by decide, by decide, rfl, ?_, ?_⟩
  · intro s q h
    simp [normalize_price, h]
  · intro s h
    simp [normalize_price, h]

/-- C2, counterexample to the claim as stated: the claimed
`normalize_price("₦12,500.00") == 12500.0` is false — the code returns
`0.0` because `float` rejects the currency symbol and the comma, and no
stripping happens first. -/
theorem claim_C2_counterexample :
    normalize_price (.pstr "₦12,500.00") = 0 ∧ (0 : ℚ) ≠ 12500 := by
  exact ⟨by decide, by decide⟩

/-- C2, witness: the parse-success conjunct of `claim_C2_price_coercion`
evaluated at the concrete input `"12500.0"`. -/
theorem claim_C2_witness :
    pyFloat? "12500.0" = some 12500 ∧ normalize_price (.pstr "12500.0") = 12500 :=
  ⟨by decide, claim_C2_price_coercion.2.2.2.1 "12500.0" 12500 (by decide)⟩

/-- C3, amended: `normalize_units` extracts the numeric token and the unit
key of the first matching pattern without any unit conversion —
`"1.5L"` yields `{volume, l, 1.5}` (not 1500 ml) and `"2kg"` yields
`{weight, kg, 2}` (not 2000 g) — and returns the zero default whenever the
name contains no digit (hence no pattern captures a numeric group). -/
theorem claim_C3_units :
    normalize_units "1.5L" = ⟨"volume", "l", mkRat 3 2⟩ ∧
    normalize_units "2kg" = ⟨"weight", "kg", 2⟩ ∧
    normalize_units "500ml" = ⟨"volume", "ml", 500⟩ ∧
    (∀ s : String, s.data.all (fun ch => !ch.isDigit) = true →
      normalize_units s = ⟨"", "", 0⟩) := by
  refine ⟨by decide, by decide, by decide, ?_⟩
  intro s h
  unfold normalize_units
  split
  · rfl
  · rw [findUnit_no_digit _ unit_patterns]
    · rfl
    · intro ch hch
      have := List.all_eq_true.1 h ch hch
      simpa using this

/-- C3, counterexample to the claim as stated: no canonical-unit conversion
happens — `normalize_units("1.5L")` is not `{value: 1500, unit: "ml"}` and
`normalize_units("2kg")` is not `{value: 2000, unit: "g"}`. -/
theorem claim_C3_counterexample :
    (normalize_units "1.5L").value ≠ 1500 ∧ (normalize_units "1.5L").unit ≠ "ml" ∧
    (normalize_units "2kg").value ≠ 2000 ∧ (normalize_units "2kg").unit ≠ "g" := by
  exact ⟨by decide, by decide, by decide, by decide⟩

/-- C3, witness: the no-digit conjunct of `claim_C3_units` evaluated at the
concrete input `"no units here"`. -/
theorem claim_C3_witness :
    ("no units here".data.all (fun ch => !ch.isDigit)) = true ∧
    normalize_units "no units here" = ⟨"", "", 0⟩ :=
  ⟨by decide, claim_C3_units.2.2.2 "no units here" (by decide)⟩

/-- C5, amended: because the rule table ends with the catch-all
`r".*" : "other"`, the name pass always returns, so the source-category
pass is dead code: the result never depends on the source category, and for
a non-empty name it is the first specific rule matching the name, else
`"other"` (empty names short-circuit to `"other"`). -/
theorem claim_C5_categorize :
    (∀ n c1 c2 : String, categorize_product n c1 = categorize_product n c2) ∧
    (∀ n c : String,
      categorize_product n c =
        if n = "" then "other"
        else (firstRuleMatch specific_category_mappings (lowerStr n)).getD "other") := by
  refine ⟨?_, fun n c => categorize_product_eq n c⟩
  intro n c1 c2
  rw [categorize_product_eq, categorize_product_eq]

/-- C5, counterexample to the claim as stated: for the name `"qqq"`
(matching no specific rule) with source category `"tea"` the code returns
`"other"`, while the claimed fallback semantics
(`categorize_product_asSpecified`) would return `"beverages"`. -/
theorem claim_C5_counterexample :
    categorize_product "qqq" "tea" = "other" ∧
    categorize_product_asSpecified "qqq" "tea" = "beverages" ∧
    ("other" : String) ≠ "beverages" := by
  exact ⟨by decide, by decide, by decide⟩

/-- C7, amended: the 90-day pruning runs only on writes that merge with an
existing ledger file — every entry of such a write is within the retention
window.  (The very first save, `file = none`, stores the new batch
unpruned; see the counterexample.) -/
theorem claim_C7_retention :
    ∀ (hist : List Rec) (now : ℤ) (new_data : List Rec),
      ∀ r ∈ update_historical_data (some hist) now new_data,
        now - 90 ≤ r.timestamp := by
  intro hist now new_data r hr
  unfold update_historical_data at hr
  have := List.of_mem_filter hr
  simpa using this

/-- C7, counterexample to the claim as stated: the first save (no ledger
file yet) writes the batch as-is, so an entry 100 days old (timestamp 0,
now = 100) is stored even though it is older than the 90-day window. -/
theorem claim_C7_counterexample :
    (⟨"p", "c", "c", 10, "s", 0, 0, "", "", 0, 0⟩ : Rec) ∈
      update_historical_data none 100 [⟨"p", "c", "c", 10, "s", 0, 0, "", "", 0, 0⟩] ∧
    (⟨"p", "c", "c", 10, "s", 0, 0, "", "", 0, 0⟩ : Rec).timestamp < 100 - 90 := by
  exact ⟨by decide, by decide⟩

/-- C7, witness: `claim_C7_retention` at a concrete write against an
existing (empty) ledger. -/
theorem claim_C7_witness :
    (⟨"p", "c", "c", 10, "s", 95, 0, "", "", 0, 0⟩ : Rec) ∈
      update_historical_data (some []) 100 [⟨"p", "c", "c", 10, "s", 95, 0, "", "", 0, 0⟩] ∧
    (100 : ℤ) - 90 ≤ (⟨"p", "c", "c", 10, "s", 95, 0, "", "", 0, 0⟩ : Rec).timestamp :=
  ⟨by decide,
    claim_C7_retention [] 100 [⟨"p", "c", "c", 10, "s", 95, 0, "", "", 0, 0⟩]
      ⟨"p", "c", "c", 10, "s", 95, 0, "", "", 0, 0⟩ (by decide)⟩

/-- C8, amended: the floor `max(current × (1 + price_change), current × 0.5)`
holds of the value before rounding, for every price and every draw of the
price change; the value actually stored is `round(..., 2)` and therefore
only guaranteed to be within 0.005 below the floor (see the counterexample
for a stored value strictly below `0.5 × current`). -/
theorem claim_C8_price_floor :
    ∀ current price_change : ℚ,
      current * (1/2) ≤ max (current * (1 + price_change)) (current * (1/2)) ∧
      current * (1/2) - 1/200 ≤ predictOne current price_change := by
  intro current pc
  refine ⟨le_max_right _ _, ?_⟩
  have h1 := pyRound2_ge (max (current * (1 + pc)) (current * (1/2)))
  have h2 : current * (1/2) ≤ max (current * (1 + pc)) (current * (1/2)) :=
    le_max_right _ _
  unfold predictOne
  linarith

/-- C8, counterexample to the claim as stated: at `current_price = 0.108`
and a drawn `price_change = -0.5` the pre-rounding prediction is exactly
`0.054 = 0.5 × current`, but the stored `round(0.054, 2) = 0.05` is
strictly below the claimed floor `0.5 × current_price`. -/
theorem claim_C8_counterexample :
    predictOne (mkRat 27 250) (-(mkRat 1 2)) < mkRat 27 250 * (1/2) := by
  have h1 : (mkRat 27 250 : ℚ) = 27/250 := by
    norm_num [Rat.mkRat_eq_div]
  have h2 : (mkRat 1 2 : ℚ) = 1/2 := by
    norm_num [Rat.mkRat_eq_div]
  rw [h1, h2]
  have hmax : max (((27 : ℚ)/250) * (1 + -((1 : ℚ)/2))) (((27 : ℚ)/250) * (1/2))
      = 27/500 := by
    norm_num
  unfold predictOne pyRound2 roundHalfEven
  rw [hmax]
  norm_num

/-- C9, confirmed: training on fewer than 10 records returns `False`
without raising, leaves the model untrained and the weights unchanged; and
`predict_prices` called untrained auto-trains and, when the data is still
insufficient, returns the input unchanged (the failure signal) rather than
raising.  `cw` (the weight-fitting) and `pc` (the drawn price changes) are
arbitrary. -/
theorem claim_C9_insufficient_training :
    ∀ (cw : List Rec → List (String × ModelW)) (pc : Rec → ℚ) (p : Predictor)
      (df : List Rec), p.historical = none → p.is_trained = false →
      df.length < 10 →
      train cw p (some df) = (false, { p with historical := some df }) ∧
      ({ p with historical := some df } : Predictor).is_trained = false ∧
      ({ p with historical := some df } : Predictor).model_weights = p.model_weights ∧
      predict_prices cw pc p df = (.untrained df, { p with historical := some df }) := by
  intro cw pc p df h1 h2 h3
  have htrain : train cw p (some df) = (false, { p with historical := some df }) := by
    unfold train
    simp [h3]
  refine ⟨htrain, by simp [h2], rfl, ?_⟩
  unfold predict_prices
  simp [h2, htrain]

/-- C9, witness: `claim_C9_insufficient_training` at a fresh predictor and
an empty training frame. -/
theorem claim_C9_witness :
    (⟨none, false, []⟩ : Predictor).historical = none ∧
    (⟨none, false, []⟩ : Predictor).is_trained = false ∧
    ([] : List Rec).length < 10 ∧
    (train (fun _ => []) ⟨none, false, []⟩ (some []) = (false, ⟨some [], false, []⟩) ∧
      (⟨some [], false, []⟩ : Predictor).is_trained = false ∧
      (⟨some [], false, []⟩ : Predictor).model_weights = [] ∧
      predict_prices (fun _ => []) (fun _ => 0) ⟨none, false, []⟩ []
        = (.untrained [], ⟨some [], false, []⟩)) :=
  ⟨rfl, rfl, by decide,
    claim_C9_insufficient_training (fun _ => []) (fun _ => 0) ⟨none, false, []⟩ []
      rfl rfl (by decide)⟩

/-- C4, amended: for every similarity function and input, deduplication
never grows the record set and every output record is an input record;
within each category, every non-seed cluster member is `> 80`-similar to
its cluster seed and distinct cluster seeds are pairwise `≤ 80`-similar.
The claimed postcondition — no two output records of one category with
similarity `≥ 80` — does not hold: the clustering threshold is strictly
`> 80`, so a pair at similarity exactly 80 survives intact (see the
counterexample), and greedy representatives of distinct clusters may also
remain similar. -/
theorem claim_C4_dedup_properties :
    ∀ (sim : String → String → ℕ) (df : List Rec),
      (deduplicate_products sim df).length ≤ df.length ∧
      (∀ r ∈ deduplicate_products sim df, r ∈ df) ∧
      (∀ g ∈ groupByCat Rec.category df, ∀ c ∈ clustersBy sim g,
        ∃ s t, c = s :: t ∧ ∀ x ∈ t, dupTest sim s x = true) ∧
      (∀ g ∈ groupByCat Rec.category df,
        (clustersBy sim g).Pairwise (fun c1 c2 => ∀ s1 s2, c1.head? = some s1 →
          c2.head? = some s2 → dupTest sim s1 s2 = false)) := by
  intro sim df
  refine ⟨deduplicate_products_length_le sim df,
    fun r hr => deduplicate_products_mem hr, ?_, ?_⟩
  · intro g _ c hc
    exact greedyClustersAux_shape _ _ _ _ hc
  · intro g _
    exact greedyClustersAux_seeds_pairwise _ _ _

/-- C4, counterexample to the claim as stated: `"abcde"` and `"abcdf"` have
similarity exactly 80 (`≥ 80`), share a category, and the deduplicated
output keeps both — the code only merges at similarity strictly above
80. -/
theorem claim_C4_counterexample :
    fuzzRatio "abcde" "abcdf" = 80 ∧
    deduplicate_products fuzzRatio
      [⟨"abcde", "c", "c", 100, "jumia", 0, 1, "", "", 0, 0⟩,
       ⟨"abcdf", "c", "c", 200, "konga", 0, 2, "", "", 0, 0⟩] =
      [⟨"abcde", "c", "c", 100, "jumia", 0, 1, "", "", 0, 0⟩,
       ⟨"abcdf", "c", "c", 200, "konga", 0, 2, "", "", 0, 0⟩] := by
  exact ⟨by decide, by decide⟩

/-- C4, witness: the membership conjunct of `claim_C4_dedup_properties` at
a concrete one-record frame. -/
theorem claim_C4_witness :
    (⟨"abcde", "c", "c", 100, "jumia", 0, 1, "", "", 0, 0⟩ : Rec) ∈
      deduplicate_products fuzzRatio
        [⟨"abcde", "c", "c", 100, "jumia", 0, 1, "", "", 0, 0⟩] ∧
    (⟨"abcde", "c", "c", 100, "jumia", 0, 1, "", "", 0, 0⟩ : Rec) ∈
      [(⟨"abcde", "c", "c", 100, "jumia", 0, 1, "", "", 0, 0⟩ : Rec)] :=
  ⟨by decide,
    (claim_C4_dedup_properties fuzzRatio
        [⟨"abcde", "c", "c", 100, "jumia", 0, 1, "", "", 0, 0⟩]).2.1
      ⟨"abcde", "c", "c", 100, "jumia", 0, 1, "", "", 0, 0⟩ (by decide)⟩

/-- C10, confirmed: deduplication only drops whole records — every output
record equals, field for field, some record of the input, for every
similarity function and input frame. -/
theorem claim_C10_dedup_frame :
    ∀ (sim : String → String → ℕ) (df : List Rec) (r : Rec),
      r ∈ deduplicate_products sim df → r ∈ df :=
  fun _ _ _ hr => deduplicate_products_mem hr

/-- C10, witness: `claim_C10_dedup_frame` at a two-record frame whose
records do get clustered (similarity above 80): the surviving
representative is the input record with the higher `sales_rank`,
unchanged. -/
theorem claim_C10_witness :
    (⟨"omo detergent 1k", "c", "c", 200, "konga", 5, 2, "", "", 0, 0⟩ : Rec) ∈
      deduplicate_products fuzzRatio
        [⟨"omo detergent 1kg", "c", "c", 100, "jumia", 3, 1, "", "", 0, 0⟩,
         ⟨"omo detergent 1k", "c", "c", 200, "konga", 5, 2, "", "", 0, 0⟩] ∧
    (⟨"omo detergent 1k", "c", "c", 200, "konga", 5, 2, "", "", 0, 0⟩ : Rec) ∈
      [(⟨"omo detergent 1kg", "c", "c", 100, "jumia", 3, 1, "", "", 0, 0⟩ : Rec),
       ⟨"omo detergent 1k", "c", "c", 200, "konga", 5, 2, "", "", 0, 0⟩] :=
  ⟨by decide,
    claim_C10_dedup_frame fuzzRatio
      [⟨"omo detergent 1kg", "c", "c", 100, "jumia", 3, 1, "", "", 0, 0⟩,
       ⟨"omo detergent 1k", "c", "c", 200, "konga", 5, 2, "", "", 0, 0⟩]
      ⟨"omo detergent 1k", "c", "c", 200, "konga", 5, 2, "", "", 0, 0⟩ (by decide)⟩

/-- C6, amended: every record produced by `process_data` carries a non-null
category from the fixed canonical set and is exactly the row-normalization
of some input record; its price is `normalize_price` of the raw price —
`0.0` for missing or unparseable input, but negative for negative numeric
input, since no clamping to `≥ 0` exists (see the counterexample). -/
theorem claim_C6_processed_invariant :
    ∀ (sim : String → String → ℕ) (now : ℤ) (rank view : ℕ → ℚ)
      (products : List RawRec) (r : Rec),
      r ∈ process_data sim now rank view products →
      r.category ∈ canonical_categories ∧
      ∃ ip ∈ products.enum,
        r = processRow now (rank ip.1) (view ip.1) ip.2 ∧
        r.price = normalize_price ip.2.price := by
  intro sim now rank view products r hr
  unfold process_data at hr
  split at hr
  · simp at hr
  · have hr2 := deduplicate_products_mem hr
    rcases List.mem_map.1 hr2 with ⟨ip, hip, rfl⟩
    exact ⟨categorize_mem_canonical _ _, ip, hip, rfl, rfl⟩

/-- C6, counterexample to the claim as stated: a raw record with price `-5`
is processed to a record with price `-5 < 0` (category is still canonical:
`"other"`). -/
theorem claim_C6_counterexample :
    process_data fuzzRatio 0 (fun _ => 0) (fun _ => 0)
      [⟨"Widget", .pnum (-5), "x", "jumia"⟩]
      = [⟨"Widget", "x", "other", -5, "jumia", 0, 0, "", "", 0, 0⟩] ∧
    ((-5 : ℚ) < 0) := by
  exact ⟨by decide, by decide⟩

/-- C6, witness: `claim_C6_processed_invariant` at the concrete
negative-price record. -/
theorem claim_C6_witness :
    (⟨"Widget", "x", "other", -5, "jumia", 0, 0, "", "", 0, 0⟩ : Rec) ∈
      process_data fuzzRatio 0 (fun _ => 0) (fun _ => 0)
        [⟨"Widget", .pnum (-5), "x", "jumia"⟩] ∧
    ((⟨"Widget", "x", "other", -5, "jumia", 0, 0, "", "", 0, 0⟩ : Rec).category
        ∈ canonical_categories ∧
      ∃ ip ∈ [(⟨"Widget", .pnum (-5), "x", "jumia"⟩ : RawRec)].enum,
        (⟨"Widget", "x", "other", -5, "jumia", 0, 0, "", "", 0, 0⟩ : Rec)
          = processRow 0 ((fun _ => (0 : ℚ)) ip.1) ((fun _ => (0 : ℚ)) ip.1) ip.2 ∧
        (⟨"Widget", "x", "other", -5, "jumia", 0, 0, "", "", 0, 0⟩ : Rec).price
          = normalize_price ip.2.price) :=
  ⟨by decide,
    claim_C6_processed_invariant fuzzRatio 0 (fun _ => 0) (fun _ => 0)
      [⟨"Widget", .pnum (-5), "x", "jumia"⟩]
      ⟨"Widget", "x", "other", -5, "jumia", 0, 0, "", "", 0, 0⟩ (by decide)⟩

/-- C1, amended: for every input and `top_n = N`, each category present in
the input yields exactly `min N (2k)` slate rows, where `k` is the number
of input rows of that category: exactly `N` when `k ≥ N` or `2k ≥ N`, but
only `2k` when `k < N/2` — the padding duplicates the top scorers once
(suffixing `" (Similar)"`), it does not loop until `N` rows exist.  In
particular a category with exactly 1 product yields 2 rows, not `N`. -/
theorem claim_C1_slate_size :
    ∀ (sim : String → String → ℕ) (df : List RRec) (topn : ℕ) (c : String),
      c ∈ df.map RRec.category →
      ((get_top_recommendations sim df topn).filter (fun r => r.category = c)).length
        = min topn (2 * (df.filter (fun r => r.category = c)).length) := by
  intro sim df topn c hc
  have hdf : ¬ df = [] := by
    rintro rfl
    simp at hc
  unfold get_top_recommendations
  rw [if_neg hdf]
  rw [filter_flatten', List.map_map, List.length_flatten, List.map_map]
  unfold groupByCat
  rw [List.map_map]
  simp only [Function.comp_def]
  have h0 : ∀ c' ∈ keysOf (df.map RRec.category), c' ≠ c →
      ((slate topn (scorePass (sitePass sim
        (df.filter (fun r => RRec.category r = c'))))).filter
          (fun r => r.category = c)).length = 0 := by
    intro c' _ hne
    rw [List.length_eq_zero]
    apply List.filter_eq_nil_iff.2
    intro r hrow
    have hallc : ∀ x ∈ df.filter (fun r => RRec.category r = c'), x.category = c' :=
      fun x hx => of_decide_eq_true (List.mem_filter.1 hx).2
    have hcat : r.category = c' := slate_cat (block_cat hallc) r hrow
    simp [hcat, hne]
  have hsum := sum_single
    (fun c' => ((slate topn (scorePass (sitePass sim
      (df.filter (fun r => RRec.category r = c'))))).filter
        (fun r => r.category = c)).length)
    (keysOf (df.map RRec.category)) c (keysOf_nodup _) (mem_keysOf.mpr hc) h0
  rw [hsum]
  beta_reduce
  have hallc : ∀ x ∈ df.filter (fun r => RRec.category r = c), x.category = c :=
    fun x hx => of_decide_eq_true (List.mem_filter.1 hx).2
  have hslate : ∀ r ∈ slate topn (scorePass (sitePass sim
      (df.filter (fun r => RRec.category r = c)))), r.category = c :=
    slate_cat (block_cat hallc)
  rw [List.filter_eq_self.2 (fun r hr => decide_eq_true (hslate r hr))]
  rw [slate_length, scorePass_length, sitePass_length]

/-- C1, counterexample to the claim as stated: a category with exactly one
distinct product and `top_n = 5` yields 2 rows (the product and one
`" (Similar)"` duplicate), not 5. -/
theorem claim_C1_counterexample :
    (get_top_recommendations fuzzRatio
      [⟨"Coke", "soft-drinks", 100, none, none, none, none, none⟩] 5).length = 2 ∧
    (get_top_recommendations fuzzRatio
      [⟨"Coke", "soft-drinks", 100, none, none, none, none, none⟩] 5).map
        (fun r => r.product_name) = ["Coke", "Coke (Similar)"] ∧
    (2 : ℕ) ≠ 5 := by
  exact ⟨by decide, by decide, by decide⟩

/-- C1, witness: `claim_C1_slate_size` at the concrete one-product frame:
`min 5 (2·1) = 2` rows for the category `"soft-drinks"`. -/
theorem claim_C1_witness :
    ("soft-drinks" ∈
      [(⟨"Coke", "soft-drinks", 100, none, none, none, none, none⟩ : RRec)].map
        RRec.category) ∧
    ((get_top_recommendations fuzzRatio
        [⟨"Coke", "soft-drinks", 100, none, none, none, none, none⟩] 5).filter
          (fun r => r.category = "soft-drinks")).length
      = min 5 (2 * ([(⟨"Coke", "soft-drinks", 100, none, none, none, none, none⟩ : RRec)].filter
          (fun r => r.category = "soft-drinks")).length) :=
  ⟨by decide,
    claim_C1_slate_size fuzzRatio
      [⟨"Coke", "soft-drinks", 100, none, none, none, none, none⟩] 5 "soft-drinks"
      (by decide)⟩

end RetailRover
